import Mathlib

/-!
A shallow embedding of `tlsmuxd` (a TLS multiplexing proxy, Go sources
`proxy.go` and the main file) and proofs about its configuration
validation, routing table, session-ticket key rotation, accept-loop
backoff, connection handling and stream relay.

Conventions of the embedding:
* Go maps whose iteration/insertion behaviour matters are modelled as
  association lists with overwrite-on-insert (`alInsert`) and first-match
  lookup (`alLookup`); a Go JSON object decodes to such a list in key
  order, so "first violation encountered" is the first in list order.
* `time.Duration` values are nanoseconds as `Nat`.
* A session ticket key (`[32]byte`) is modelled abstractly as a `Nat`;
  the code never inspects key contents.
* Fallible operations return `Except String` / `Option`; a call to
  `log.Fatalf` (process termination) is modelled as the `none` outcome.
-/

set_option autoImplicit false

/-- A session ticket key (`[32]byte` in the Go code, treated as opaque). -/
abbrev Key := Nat

/-- Association-list lookup: first binding for the key, as a Go map read. -/
def alLookup {β : Type} : List (String × β) → String → Option β
  | [], _ => none
  | (k2, v) :: rest, k => if k2 == k then some v else alLookup rest k

/-- Association-list insert with overwrite, as a Go map write. -/
def alInsert {β : Type} : List (String × β) → String → β → List (String × β)
  | [], k, v => [(k, v)]
  | (k2, v2) :: rest, k, v =>
    if k2 == k then (k, v) :: rest else (k2, v2) :: alInsert rest k v

/-- Function contains from proxy.go: linear membership scan over a string slice. -/
def contains : List String → String → Bool
  | [], _ => false
  | s2 :: rest, s1 => if s1 == s2 then true else contains rest s1

/-- One entry of the `protos` configuration array: a protocol name and a
hostname-to-backend-address map. -/
structure ProtoConfig where
  name : String
  hosts : List (String × String)
deriving Repr, DecidableEq

/-- The JSON configuration of the proxy (`proxy` struct, exported fields). -/
structure ProxyConfig where
  bindInterfaces : List String
  email : String
  cacheDir : String
  protos : List ProtoConfig
  defaultProto : String
deriving Repr, DecidableEq

/-- A routed backend (`backend` struct): log prefix tag and dial address. -/
structure Backend where
  name : String
  addr : String
deriving Repr, DecidableEq

/-- The log tag built for a backend: `fmt.Sprintf("%q.%q: ", proto, host)`. -/
def backendTag (protoName host : String) : String :=
  "\"" ++ protoName ++ "\".\"" ++ host ++ "\": "

/-- The state `proxy.init` produces on success: the routing table
(protocol name → hostname → backend), the accumulated distinct hostname
allow-list, the advertised ALPN protocol list (`config.NextProtos`) and
the initial session-ticket key ring. -/
structure InitResult where
  backends : List (String × List (String × Backend))
  hosts : List String
  nextProtos : List String
  initialKeys : List Key
deriving Repr, DecidableEq

/-- The inner loop of `proxy.init` over `proto.Hosts`: validates each
hostname/address pair, builds the per-protocol backend map and extends
the distinct hostname list. -/
def initHosts (protoName : String) (i : Nat) :
    List (String × String) → List (String × Backend) → List String →
    Except String (List (String × Backend) × List String)
  | [], hostMap, hosts => .ok (hostMap, hosts)
  | (host, addr) :: rest, hostMap, hosts =>
    if host == "" then
      .error ("empty key in protos[" ++ toString i ++ "].hosts")
    else if addr == "" then
      .error ("protos[" ++ toString i ++ "].hosts." ++ host ++ " is empty")
    else
      initHosts protoName i rest
        (alInsert hostMap host ⟨backendTag protoName host, addr⟩)
        (if contains hosts host then hosts else hosts ++ [host])

/-- The outer loop of `proxy.init` over `p.Protos`: validates each entry,
installs its host map into the routing table and appends the protocol
name to `config.NextProtos`. -/
def initProtos :
    List ProtoConfig → Nat → List (String × List (String × Backend)) →
    List String → List String →
    Except String (List (String × List (String × Backend)) × List String × List String)
  | [], _, backends, hosts, nextProtos => .ok (backends, hosts, nextProtos)
  | pr :: rest, i, backends, hosts, nextProtos =>
    if pr.name == "" then
      .error ("protos[" ++ toString i ++ "].name is empty or missing")
    else if pr.hosts.isEmpty then
      .error ("protos[" ++ toString i ++ "].hosts is empty or missing")
    else
      match initHosts pr.name i pr.hosts [] hosts with
      | .error e => .error e
      | .ok (hostMap, hosts) =>
        initProtos rest (i + 1) (alInsert backends pr.name hostMap) hosts
          (nextProtos ++ [pr.name])

/-- Capacity of the session-ticket key ring: `make([][32]byte, 1, 96)`. -/
def sessionKeyCap : Nat := 96

/-- Model of proxy.init: validates the configuration in source order, aliases the
routing-table entry for the empty protocol name to entry for the default
protocol, and generates the initial session ticket key (`rand` is the
outcome of `rand.Read`: `none` models a randomness failure). -/
def pinit (cfg : ProxyConfig) (rand : Option Key) : Except String InitResult :=
  if cfg.defaultProto == "" then
    .error "defaultProto is empty or missing"
  else
    match initProtos cfg.protos 0 [] [] [] with
    | .error e => .error e
    | .ok (backends, hosts, nextProtos) =>
      match alLookup backends cfg.defaultProto with
      | none =>
        .error ("defaultProto (\"" ++ cfg.defaultProto ++ "\") is not defined in protos")
      | some defMap =>
        let backends := alInsert backends "" defMap
        if cfg.cacheDir == "" then
          .error "empty or missing cacheDir"
        else
          match rand with
          | none => .error "session ticket key generation failed"
          | some k =>
            .ok { backends := backends, hosts := hosts,
                  nextProtos := nextProtos, initialKeys := [k] }

/-- Modelled from the spec: the first structural violation of a
configuration, in the order the validation encounters them (missing
default protocol; then per protocol entry: empty name, empty host set,
and per host: empty hostname key, empty backend address; then undefined
default-protocol reference; then missing cache directory). Used as the
specification side of the validation refinement. -/
def hostsFirstViolation (i : Nat) : List (String × String) → Option String
  | [] => none
  | (host, addr) :: rest =>
    if host == "" then
      some ("empty key in protos[" ++ toString i ++ "].hosts")
    else if addr == "" then
      some ("protos[" ++ toString i ++ "].hosts." ++ host ++ " is empty")
    else hostsFirstViolation i rest

/-- Modelled from the spec: first violation among the protocol entries. -/
def protosFirstViolation : Nat → List ProtoConfig → Option String
  | _, [] => none
  | i, pr :: rest =>
    if pr.name == "" then
      some ("protos[" ++ toString i ++ "].name is empty or missing")
    else if pr.hosts.isEmpty then
      some ("protos[" ++ toString i ++ "].hosts is empty or missing")
    else
      match hostsFirstViolation i pr.hosts with
      | some e => some e
      | none => protosFirstViolation (i + 1) rest

/-- Modelled from the spec: the first structural violation of the whole
configuration, or `none` when the configuration is valid. -/
def firstViolation (cfg : ProxyConfig) : Option String :=
  if cfg.defaultProto == "" then
    some "defaultProto is empty or missing"
  else
    match protosFirstViolation 0 cfg.protos with
    | some e => some e
    | none =>
      if !(cfg.protos.any (fun pr => pr.name == cfg.defaultProto)) then
        some ("defaultProto (\"" ++ cfg.defaultProto ++ "\") is not defined in protos")
      else if cfg.cacheDir == "" then
        some "empty or missing cacheDir"
      else none

/-- A hostname is referenced by the configuration when some protocol
entry maps it to some backend address. -/
def referencedHost (cfg : ProxyConfig) (h : String) : Prop :=
  ∃ pr, pr ∈ cfg.protos ∧ ∃ ad, (h, ad) ∈ pr.hosts

/-! ### Session-ticket key rotation (`proxy.rotateSessionTicketKeys`)

The Go slice of keys is modelled as a `List Key` with explicit index
reads (`List.getD`) and in-range writes (`List.set`). -/

/-- The key-shifting loop of `rotateSessionTicketKeys`:
`for s1, s2 := len-2, len-1; s2 > 0; s1, s2 = s1-1, s2-1 { keys[s2] = keys[s1] }`.
The loop counts `s2` down from `len-1` to `1`; `s1` is always `s2 - 1`. -/
def shiftLoop (keys : List Key) : Nat → List Key
  | 0 => keys
  | s2 + 1 => shiftLoop (keys.set (s2 + 1) (keys.getD s2 0)) s2

/-- Models `if len(keys) < cap(keys) { keys = keys[:len(keys)+1] }`: the slot
exposed by re-slicing holds whatever was in the backing array; it is
always overwritten by the shift before being read, so its content (here
`0`) is irrelevant. -/
def extendIfBelowCap (keys : List Key) : List Key :=
  if keys.length < sessionKeyCap then keys ++ [0] else keys

/-- The ring after extension and shifting, before the fresh key lands
in slot 0. -/
def shiftedKeys (keys : List Key) : List Key :=
  shiftLoop (extendIfBelowCap keys) ((extendIfBelowCap keys).length - 1)

/-- One iteration of the rotation loop body. `rand` is the outcome of
`rand.Read` for the fresh key; `none` models a randomness failure, on
which the Go code calls `log.Fatalf` — the process terminates, modelled
as the `none` result. -/
def rotateStep (keys : List Key) (rand : Option Key) : Option (List Key) :=
  match rand with
  | none => none
  | some k => some ((shiftedKeys keys).set 0 k)

/-- Several rotation ticks in a row, each with a successfully generated
fresh key, oldest tick first. -/
def rotateRun (keys : List Key) : List Key → List Key
  | [] => keys
  | k :: rest => rotateRun ((shiftedKeys keys).set 0 k) rest

/-! ### Accept loop (`proxy.serve`) -/

/-- One outcome of `l.Accept()` as the serve loop classifies it. -/
inductive AcceptEvent where
  | success
  | tempError
  | fatalError (e : String)
deriving Repr, DecidableEq

/-- Model of proxy.serve run over a finite prefix of accept outcomes, starting
from backoff delay `delay` (nanoseconds). Returns the list of sleeps
performed (one per temporary error, in order) and `some e` when a
non-temporary error `e` terminated the loop (`none`: the outcome list
was exhausted with the loop still running). -/
def serveLoop : Nat → List AcceptEvent → List Nat × Option String
  | _, [] => ([], none)
  | _, .success :: rest => serveLoop 0 rest
  | delay, .tempError :: rest =>
    let delay :=
      if delay == 0 then 5000000
      else
        let d := delay * 2
        if d > 1000000000 then 1000000000 else d
    let r := serveLoop delay rest
    (delay :: r.1, r.2)
  | _, .fatalError e :: _ => ([], some e)

/-! ### Connection handling (`proxy.handle`) -/

/-- What `proxy.handle` does with one connection. -/
inductive HandleOutcome where
  | handshakeFailed
  | routeMiss (proto host : String)
  | routed (b : Backend)
deriving Repr, DecidableEq

/-- Model of proxy.handle: after a successful handshake, look up the negotiated
ALPN protocol in the routing table (a missing protocol yields the empty
Go map, i.e. `[]`), then the SNI server name in the host map; a miss is
logged and the connection closed, a hit is handed to the backend. -/
def phandle (backends : List (String × List (String × Backend)))
    (handshakeOk : Bool) (negotiatedProtocol serverName : String) : HandleOutcome :=
  if !handshakeOk then .handshakeFailed
  else
    let hosts := (alLookup backends negotiatedProtocol).getD []
    match alLookup hosts serverName with
    | none => .routeMiss negotiatedProtocol serverName
    | some b => .routed b

/-! ### Stream relay (`backend.handle`) -/

/-- Observable events of one relay copy direction. `close n` closes
socket `n`; socket 1 is the accepted client connection `c1`, socket 2
the dialed backend connection `c2`. -/
inductive RelayEv where
  | bufGet
  | logErr
  | close (sock : Nat)
  | logDisconnect
  | bufPut
deriving Repr, DecidableEq

/-- Non-blocking send on `first := make(chan<- struct{}, 1)`: succeeds
iff the one-slot buffer is free. `slots` is the number of queued items. -/
def trySend (slots : Nat) : Bool × Nat :=
  if slots < 1 then (true, slots + 1) else (false, slots)

/-- The `cp` closure of `backend.handle`, as the event trace of one
direction: get a buffer from the pool, copy until EOF or error
(`copyErr`), race for the one-slot signal; the winner logs the error (if
any), closes both sockets and logs the disconnect; the loser does
nothing further; both return the buffer to the pool. The channel slot
count is threaded through, serializing the two `select`s. -/
def cp (dst src : Nat) (copyErr : Option String) (slots : Nat) : List RelayEv × Nat :=
  let (won, slots) := trySend slots
  if won then
    ([RelayEv.bufGet] ++ (if copyErr.isSome then [RelayEv.logErr] else []) ++
      [RelayEv.close dst, RelayEv.close src, RelayEv.logDisconnect, RelayEv.bufPut], slots)
  else
    ([RelayEv.bufGet, RelayEv.bufPut], slots)

/-- The combined trace of the two relay directions after a successful
dial. `cp 1 2` is the backend-to-client direction (`cp(c1, c2)` run in a
goroutine), `cp 2 1` the client-to-backend one; `downFirst` says whether
the backend-to-client direction reaches the one-slot signal first, so
both interleavings are covered. -/
def relayTrace (downFirst : Bool) (errDown errUp : Option String) : List RelayEv :=
  if downFirst then
    let (t1, slots) := cp 1 2 errDown 0
    let (t2, _) := cp 2 1 errUp slots
    t1 ++ t2
  else
    let (t2, slots) := cp 2 1 errUp 0
    let (t1, _) := cp 1 2 errDown slots
    t2 ++ t1

/-! ### Keep-alive listener (`tcpKeepAliveListener.Accept`) -/

/-- A TCP connection as the keep-alive wrapper observes it. -/
structure TCPConn where
  keepAlive : Bool
  keepAlivePeriod : Nat
deriving Repr, DecidableEq

/-- Model of tcpKeepAliveListener.Accept: forward AcceptTCP, and on success
enable keep-alive and set the keep-alive period before returning the
connection. -/
def tcpKeepAliveListenerAccept (raw : Except String TCPConn) (period : Nat) :
    Except String TCPConn :=
  match raw with
  | .error e => .error e
  | .ok tc => .ok { tc with keepAlive := true, keepAlivePeriod := period }

/-! ### Helper lemmas: association lists and membership -/

theorem alLookup_alInsert_self {β : Type} (m : List (String × β)) (k : String) (v : β) :
    alLookup (alInsert m k v) k = some v := by
  induction m with
  | nil => simp [alInsert, alLookup]
  | cons p rest ih =>
    obtain ⟨k2, v2⟩ := p
    by_cases h : k2 = k
    · simp [alInsert, alLookup, h]
    · simp [alInsert, alLookup, h, ih]

theorem alLookup_alInsert_ne {β : Type} (m : List (String × β)) (k k2 : String) (v : β)
    (hne : k2 ≠ k) : alLookup (alInsert m k v) k2 = alLookup m k2 := by
  have hne2 : k ≠ k2 := Ne.symm hne
  induction m with
  | nil => simp [alInsert, alLookup, hne2]
  | cons p rest ih =>
    obtain ⟨k3, v3⟩ := p
    by_cases h : k3 = k
    · subst h
      simp [alInsert, alLookup, hne2]
    · simp [alInsert, alLookup, h, ih]

theorem alLookup_alInsert_isSome {β : Type} (m : List (String × β)) (k k2 : String) (v : β) :
    (alLookup (alInsert m k v) k2).isSome
      = (k2 == k || (alLookup m k2).isSome) := by
  by_cases h : k2 = k
  · subst h
    simp [alLookup_alInsert_self]
  · simp [alLookup_alInsert_ne m k k2 v h, h]

theorem contains_iff (l : List String) (s : String) : contains l s = true ↔ s ∈ l := by
  induction l with
  | nil => simp [contains]
  | cons a rest ih =>
    by_cases h : s = a <;> simp [contains, h, ih]

/-! ### Helper lemmas: the key-shifting loop -/

theorem take_set_of_le {α : Type} (l : List α) (i n : Nat) (x : α) (h : n ≤ i) :
    (l.set i x).take n = l.take n := by
  induction l generalizing i n with
  | nil => simp
  | cons a t ih =>
    cases i with
    | zero =>
      have hn : n = 0 := by omega
      subst hn
      simp
    | succ i =>
      cases n with
      | zero => simp
      | succ n => simp [List.set, List.take, ih i n (by omega)]

theorem shiftLoop_eq (l : List Key) (m : Nat) (h : m < l.length) :
    shiftLoop l m = l.take 1 ++ l.take m ++ l.drop (m + 1) := by
  induction m generalizing l with
  | zero =>
    have h1 := List.take_append_drop 1 l
    rw [List.drop_one] at h1
    simp [shiftLoop, h1]
  | succ m ih =>
    rw [shiftLoop]
    rw [ih _ (by simp; omega)]
    rw [take_set_of_le _ _ _ _ (by omega), take_set_of_le _ _ _ _ (by omega)]
    rw [List.drop_set]
    rw [if_neg (by omega), Nat.sub_self]
    rw [List.drop_eq_getElem_cons h, List.set_cons_zero]
    have hm : m < l.length := by omega
    have hts : l.take (m + 1) = l.take m ++ [l.getD m 0] := by
      rw [List.take_succ, List.getElem?_eq_getElem hm, List.getD_eq_getElem l 0 hm]
      simp
    rw [hts]
    simp

theorem shiftedKeys_set_below (l : List Key) (k : Key) (h0 : l ≠ [])
    (h : l.length < sessionKeyCap) : (shiftedKeys l).set 0 k = k :: l := by
  obtain ⟨a, t, rfl⟩ : ∃ a t, l = a :: t := by
    cases l with
    | nil => exact absurd rfl h0
    | cons a t => exact ⟨a, t, rfl⟩
  unfold shiftedKeys extendIfBelowCap
  rw [if_pos h]
  have hlen : ((a :: t) ++ [0] : List Key).length - 1 = (a :: t).length := by simp
  rw [hlen, shiftLoop_eq _ _ (by simp)]
  rw [List.take_append_of_le_length (by simp), List.take_left,
    List.drop_eq_nil_of_le (by simp)]
  simp

theorem shiftedKeys_set_at_cap (l : List Key) (k : Key)
    (h : l.length = sessionKeyCap) : (shiftedKeys l).set 0 k = k :: l.dropLast := by
  have hcap : 0 < sessionKeyCap := by norm_num [sessionKeyCap]
  obtain ⟨a, t, rfl⟩ : ∃ a t, l = a :: t := by
    cases l with
    | nil => simp [sessionKeyCap] at h
    | cons a t => exact ⟨a, t, rfl⟩
  unfold shiftedKeys extendIfBelowCap
  rw [if_neg (by omega)]
  rw [shiftLoop_eq _ _ (by omega)]
  rw [← List.dropLast_eq_take,
    show (a :: t).length - 1 + 1 = (a :: t).length from by omega,
    List.drop_length]
  simp

theorem rotateRun_eq (l ks : List Key) (h0 : l ≠ [])
    (h : l.length + ks.length ≤ sessionKeyCap) :
    rotateRun l ks = ks.reverse ++ l := by
  induction ks generalizing l with
  | nil => simp [rotateRun]
  | cons k rest ih =>
    rw [rotateRun, shiftedKeys_set_below l k h0 (by simp at h; omega)]
    rw [ih (k :: l) (by simp) (by simp at h ⊢; omega)]
    simp

/-! ### Helper lemmas: configuration validation -/

theorem exists_pair_mem_cons {x host addr : String} {rest : List (String × String)} :
    (∃ ad, (x, ad) ∈ (host, addr) :: rest) ↔ x = host ∨ ∃ ad, (x, ad) ∈ rest := by
  constructor
  · rintro ⟨ad, had⟩
    rcases List.mem_cons.mp had with heq | hmem
    · exact Or.inl (congrArg Prod.fst heq)
    · exact Or.inr ⟨ad, hmem⟩
  · rintro (rfl | ⟨ad, had⟩)
    · exact ⟨addr, List.mem_cons_self _ _⟩
    · exact ⟨ad, List.mem_cons_of_mem _ had⟩

theorem initHosts_error (name : String) (i : Nat) (hl : List (String × String))
    (hm : List (String × Backend)) (hs : List String) (e : String)
    (h : hostsFirstViolation i hl = some e) :
    initHosts name i hl hm hs = .error e := by
  induction hl generalizing hm hs with
  | nil => simp [hostsFirstViolation] at h
  | cons p rest ih =>
    obtain ⟨host, addr⟩ := p
    by_cases h1 : host = ""
    · simp [hostsFirstViolation, h1] at h
      simp [initHosts, h1, h]
    · by_cases h2 : addr = ""
      · simp [hostsFirstViolation, h1, h2] at h
        simp [initHosts, h1, h2, h]
      · simp only [hostsFirstViolation] at h
        rw [if_neg (by simpa using h1), if_neg (by simpa using h2)] at h
        simp [initHosts, h1, h2, ih _ _ h]

theorem initHosts_ok (name : String) (i : Nat) (hl : List (String × String))
    (hm : List (String × Backend)) (hs : List String)
    (h : hostsFirstViolation i hl = none) :
    ∃ hm2 hs2, initHosts name i hl hm hs = .ok (hm2, hs2) ∧
      (hs.Nodup → hs2.Nodup) ∧
      (∀ x, x ∈ hs2 ↔ x ∈ hs ∨ ∃ ad, (x, ad) ∈ hl) := by
  induction hl generalizing hm hs with
  | nil => exact ⟨hm, hs, rfl, fun hn => hn, by simp [initHosts]⟩
  | cons p rest ih =>
    obtain ⟨host, addr⟩ := p
    have h1 : ¬host = "" := by
      intro h1
      simp [hostsFirstViolation, h1] at h
    have h2 : ¬addr = "" := by
      intro h2
      simp [hostsFirstViolation, h1, h2] at h
    have h3 : hostsFirstViolation i rest = none := by
      simp only [hostsFirstViolation] at h
      rwa [if_neg (by simpa using h1), if_neg (by simpa using h2)] at h
    by_cases hc : contains hs host = true
    · obtain ⟨hm2, hs2, heq, hnd, hmem⟩ :=
        ih (alInsert hm host ⟨backendTag name host, addr⟩) hs h3
      have hhost : host ∈ hs := (contains_iff hs host).mp hc
      refine ⟨hm2, hs2, by simp [initHosts, h1, h2, hc, heq], hnd, ?_⟩
      intro x
      rw [hmem x, exists_pair_mem_cons]
      constructor
      · rintro (hx | hex)
        · exact Or.inl hx
        · exact Or.inr (Or.inr hex)
      · rintro (hx | rfl | hex)
        · exact Or.inl hx
        · exact Or.inl hhost
        · exact Or.inr hex
    · obtain ⟨hm2, hs2, heq, hnd, hmem⟩ :=
        ih (alInsert hm host ⟨backendTag name host, addr⟩) (hs ++ [host]) h3
      have hhost : host ∉ hs := fun hmem2 => hc ((contains_iff hs host).mpr hmem2)
      refine ⟨hm2, hs2, by simp [initHosts, h1, h2, hc, heq], ?_, ?_⟩
      · intro hnodup
        exact hnd (by simp [List.nodup_append, hnodup, hhost])
      · intro x
        rw [hmem x, exists_pair_mem_cons]
        simp [List.mem_append, or_assoc]

theorem initProtos_error (protos : List ProtoConfig) (i : Nat)
    (b : List (String × List (String × Backend))) (hs nps : List String) (e : String)
    (h : protosFirstViolation i protos = some e) :
    initProtos protos i b hs nps = .error e := by
  induction protos generalizing i b hs nps with
  | nil => simp [protosFirstViolation] at h
  | cons pr rest ih =>
    by_cases h1 : pr.name = ""
    · simp [protosFirstViolation, h1] at h
      simp [initProtos, h1, h]
    · by_cases h2 : pr.hosts.isEmpty
      · simp [protosFirstViolation, h1, h2] at h
        simp [initProtos, h1, h2, h]
      · simp only [protosFirstViolation] at h
        rw [if_neg (by simpa using h1), if_neg (by simpa using h2)] at h
        cases hv : hostsFirstViolation i pr.hosts with
        | some e2 =>
          rw [hv] at h
          simp only [Option.some.injEq] at h
          subst h
          simp [initProtos, h1, h2, initHosts_error pr.name i pr.hosts [] hs e2 hv]
        | none =>
          rw [hv] at h
          obtain ⟨hm2, hs2, heq, -, -⟩ := initHosts_ok pr.name i pr.hosts [] hs hv
          simp [initProtos, h1, h2, heq, ih _ _ _ _ h]

theorem initProtos_ok (protos : List ProtoConfig) (i : Nat)
    (b : List (String × List (String × Backend))) (hs nps : List String)
    (h : protosFirstViolation i protos = none) :
    ∃ b2 hs2 nps2, initProtos protos i b hs nps = .ok (b2, hs2, nps2) ∧
      nps2 = nps ++ protos.map (fun pr => pr.name) ∧
      (∀ s, (alLookup b2 s).isSome = true ↔
        ((alLookup b s).isSome = true ∨ ∃ pr, pr ∈ protos ∧ pr.name = s)) ∧
      (hs.Nodup → hs2.Nodup) ∧
      (∀ x, x ∈ hs2 ↔ x ∈ hs ∨ ∃ pr, pr ∈ protos ∧ ∃ ad, (x, ad) ∈ pr.hosts) := by
  induction protos generalizing i b hs nps with
  | nil => exact ⟨b, hs, nps, rfl, by simp, by simp, fun hn => hn, by simp⟩
  | cons pr rest ih =>
    have h1 : ¬pr.name = "" := by
      intro h1
      simp [protosFirstViolation, h1] at h
    have h2 : ¬pr.hosts.isEmpty = true := by
      intro h2
      simp [protosFirstViolation, h1, h2] at h
    have h3 : protosFirstViolation (i + 1) rest = none := by
      simp only [protosFirstViolation] at h
      rw [if_neg (by simpa using h1), if_neg (by simpa using h2)] at h
      cases hv : hostsFirstViolation i pr.hosts with
      | some e2 => rw [hv] at h; cases h
      | none => rwa [hv] at h
    have hv : hostsFirstViolation i pr.hosts = none := by
      simp only [protosFirstViolation] at h
      rw [if_neg (by simpa using h1), if_neg (by simpa using h2)] at h
      cases hv : hostsFirstViolation i pr.hosts with
      | some e2 => rw [hv] at h; cases h
      | none => rfl
    obtain ⟨hm2, hs2, heq, hnd, hmem⟩ := initHosts_ok pr.name i pr.hosts [] hs hv
    obtain ⟨b2, hs3, nps3, heq2, hnps, hlook, hnd2, hmem2⟩ :=
      ih (i + 1) (alInsert b pr.name hm2) hs2 (nps ++ [pr.name]) h3
    refine ⟨b2, hs3, nps3, by simp [initProtos, h1, h2, heq, heq2], by simp [hnps], ?_, ?_, ?_⟩
    · intro s
      rw [hlook s]
      rw [show ((alLookup (alInsert b pr.name hm2) s).isSome = true)
            = ((s == pr.name || (alLookup b s).isSome) = true)
          from by rw [alLookup_alInsert_isSome]]
      constructor
      · rintro (hb | hex)
        · rcases Bool.or_eq_true_iff.mp hb with hb1 | hb2
          · exact Or.inr ⟨pr, List.mem_cons_self _ _, (beq_iff_eq.mp hb1).symm⟩
          · exact Or.inl hb2
        · obtain ⟨pr2, hpr2, hname⟩ := hex
          exact Or.inr ⟨pr2, List.mem_cons_of_mem _ hpr2, hname⟩
      · rintro (hb | ⟨pr2, hpr2, hname⟩)
        · exact Or.inl (Bool.or_eq_true_iff.mpr (Or.inr hb))
        · rcases List.mem_cons.mp hpr2 with rfl | hpr2
          · exact Or.inl (Bool.or_eq_true_iff.mpr (Or.inl (beq_iff_eq.mpr hname.symm)))
          · exact Or.inr ⟨pr2, hpr2, hname⟩
    · exact fun hnodup => hnd2 (hnd hnodup)
    · intro x
      rw [hmem2 x]
      constructor
      · rintro (hx | ⟨pr2, hpr2, hex⟩)
        · rcases (hmem x).mp hx with hx2 | hex2
          · exact Or.inl hx2
          · exact Or.inr ⟨pr, List.mem_cons_self _ _, hex2⟩
        · exact Or.inr ⟨pr2, List.mem_cons_of_mem _ hpr2, hex⟩
      · rintro (hx | ⟨pr2, hpr2, hex⟩)
        · exact Or.inl ((hmem x).mpr (Or.inl hx))
        · rcases List.mem_cons.mp hpr2 with rfl | hpr2
          · exact Or.inl ((hmem x).mpr (Or.inr hex))
          · exact Or.inr ⟨pr2, hpr2, hex⟩

theorem pinit_ok_elim (cfg : ProxyConfig) (rand : Option Key) (res : InitResult)
    (h : pinit cfg rand = .ok res) :
    ¬cfg.defaultProto = "" ∧ ¬cfg.cacheDir = "" ∧
    ∃ b hs nps defMap k,
      initProtos cfg.protos 0 [] [] [] = .ok (b, hs, nps) ∧
      alLookup b cfg.defaultProto = some defMap ∧ rand = some k ∧
      res = ⟨alInsert b "" defMap, hs, nps, [k]⟩ := by
  by_cases h1 : cfg.defaultProto = ""
  · simp [pinit, h1] at h
  rcases hp : initProtos cfg.protos 0 [] [] [] with e | ⟨b, hs, nps⟩
  · simp only [pinit] at h
    rw [if_neg (by simpa using h1), hp] at h
    cases h
  simp only [pinit] at h
  rw [if_neg (by simpa using h1), hp] at h
  rcases hl : alLookup b cfg.defaultProto with _ | defMap
  · simp [hl] at h
  by_cases h2 : cfg.cacheDir = ""
  · simp [hl, h2] at h
  rcases rand with _ | k
  · simp [hl, h2] at h
  · simp [hl, h2] at h
    exact ⟨h1, h2, b, hs, nps, defMap, k, rfl, hl, rfl, h.symm⟩

theorem initProtos_keys (protos : List ProtoConfig) (i : Nat)
    (b b2 : List (String × List (String × Backend))) (hs nps hs2 nps2 : List String)
    (h : initProtos protos i b hs nps = .ok (b2, hs2, nps2))
    (hinv : ∀ s, s ∈ nps → (alLookup b s).isSome = true) :
    ∀ s, s ∈ nps2 → (alLookup b2 s).isSome = true := by
  induction protos generalizing i b hs nps with
  | nil =>
    simp only [initProtos] at h
    cases h
    exact hinv
  | cons pr rest ih =>
    simp only [initProtos] at h
    by_cases h1 : pr.name = ""
    · simp [h1] at h
    rw [if_neg (by simpa using h1)] at h
    by_cases h2 : pr.hosts.isEmpty
    · simp [h2] at h
    rw [if_neg (by simpa using h2)] at h
    rcases hih : initHosts pr.name i pr.hosts [] hs with e | ⟨hm2, hsx⟩
    · rw [hih] at h
      cases h
    rw [hih] at h
    simp only at h
    refine ih (i + 1) (alInsert b pr.name hm2) hsx (nps ++ [pr.name]) h ?_
    intro s hsmem
    rcases List.mem_append.mp hsmem with hsn | hsn
    · rw [alLookup_alInsert_isSome]
      simp [hinv s hsn]
    · simp only [List.mem_singleton] at hsn
      subst hsn
      rw [alLookup_alInsert_isSome]
      simp

theorem firstViolation_none_elim (cfg : ProxyConfig) (h : firstViolation cfg = none) :
    ¬cfg.defaultProto = "" ∧ protosFirstViolation 0 cfg.protos = none ∧
    cfg.protos.any (fun pr => pr.name == cfg.defaultProto) = true ∧
    ¬cfg.cacheDir = "" := by
  have h1 : ¬cfg.defaultProto = "" := by
    intro h1
    simp [firstViolation, h1] at h
  have hpv : protosFirstViolation 0 cfg.protos = none := by
    rcases hpv : protosFirstViolation 0 cfg.protos with _ | e
    · rfl
    · simp [firstViolation, h1, hpv] at h
  have hany : cfg.protos.any (fun pr => pr.name == cfg.defaultProto) = true := by
    rcases hany : cfg.protos.any (fun pr => pr.name == cfg.defaultProto) with _ | _
    · simp [firstViolation, h1, hpv, hany] at h
    · rfl
  have h2 : ¬cfg.cacheDir = "" := by
    intro h2
    simp [firstViolation, h1, hpv, hany, h2] at h
  exact ⟨h1, hpv, hany, h2⟩

theorem pinit_valid_shape (cfg : ProxyConfig) (h : firstViolation cfg = none)
    (rand : Option Key) :
    ∃ b hs nps defMap,
      initProtos cfg.protos 0 [] [] [] = .ok (b, hs, nps) ∧
      alLookup b cfg.defaultProto = some defMap ∧
      hs.Nodup ∧ (∀ x, x ∈ hs ↔ referencedHost cfg x) ∧
      pinit cfg rand = (match rand with
        | none => .error "session ticket key generation failed"
        | some k => .ok ⟨alInsert b "" defMap, hs, nps, [k]⟩) := by
  obtain ⟨h1, hpv, hany, h2⟩ := firstViolation_none_elim cfg h
  obtain ⟨b, hs, nps, heq, hnps, hlook, hnd, hmem⟩ :=
    initProtos_ok cfg.protos 0 [] [] [] hpv
  have hdef : (alLookup b cfg.defaultProto).isSome = true := by
    rw [hlook cfg.defaultProto]
    refine Or.inr ?_
    obtain ⟨pr, hpr, hname⟩ := List.any_eq_true.mp hany
    exact ⟨pr, hpr, beq_iff_eq.mp hname⟩
  obtain ⟨defMap, hl⟩ := Option.isSome_iff_exists.mp hdef
  refine ⟨b, hs, nps, defMap, heq, hl, hnd (by simp), ?_, ?_⟩
  · intro x
    rw [hmem x]
    simp [referencedHost]
  · simp only [pinit]
    rw [if_neg (by simpa using h1), heq]
    simp [hl, h2]

/-! ### Claim theorems -/

/-- C4: In the accept loop, a temporary accept error when the current
delay is zero sets the delay to 5ms; each consecutive temporary error
doubles the delay, capped at 1 second; a successful accept resets the
delay to zero, so three consecutive temporary errors produce delays of
5ms, 10ms, 20ms and after a success the next temporary error again
produces 5ms; a non-temporary error terminates the loop and is returned
to the caller. -/
theorem serve_backoff :
    (serveLoop 0 [AcceptEvent.tempError, AcceptEvent.tempError, AcceptEvent.tempError]
      = ([5000000, 10000000, 20000000], none)) ∧
    (∀ rest, ((serveLoop 0 (AcceptEvent.tempError :: rest)).1).head? = some 5000000) ∧
    (∀ d rest, ¬d = 0 → ((serveLoop d (AcceptEvent.tempError :: rest)).1).head?
      = some (if d * 2 > 1000000000 then 1000000000 else d * 2)) ∧
    (∀ d rest, serveLoop d (AcceptEvent.success :: rest) = serveLoop 0 rest) ∧
    (∀ d rest,
      ((serveLoop d (AcceptEvent.success :: AcceptEvent.tempError :: rest)).1).head?
        = some 5000000) ∧
    (∀ d e rest, serveLoop d (AcceptEvent.fatalError e :: rest) = ([], some e)) := by
  refine ⟨by decide, ?_, ?_, ?_, ?_, ?_⟩
  · intro rest
    simp [serveLoop]
  · intro d rest hd
    simp [serveLoop, hd]
  · intro d rest
    simp [serveLoop]
  · intro d rest
    simp [serveLoop]
  · intro d e rest
    simp [serveLoop]

/-- Witness for C4 at a concrete nonzero delay: one temporary error at
delay 5ms sleeps 10ms. -/
theorem serve_backoff_witness :
    ((serveLoop 5000000 [AcceptEvent.tempError]).1).head? = some 10000000 := by
  have h := serve_backoff.2.2.1 5000000 [] (by decide)
  simpa using h

/-- C5: For every connection whose handshake succeeds but whose
negotiated ALPN protocol and SNI hostname pair is not present in the
routing table, the handler logs the miss and closes the connection
(`routeMiss`), never dialing any backend. -/
theorem handle_unknown_route (backends : List (String × List (String × Backend)))
    (proto host : String)
    (h : alLookup ((alLookup backends proto).getD []) host = none) :
    phandle backends true proto host = HandleOutcome.routeMiss proto host := by
  simp [phandle, h]

/-- Witness for C5: a populated routing table missing the requested
hostname yields a logged miss and close. -/
theorem handle_unknown_route_witness :
    phandle [("h2", [("example.com", ⟨"t", "127.0.0.1:8080"⟩)])] true "h2" "other.com"
      = HandleOutcome.routeMiss "h2" "other.com" :=
  handle_unknown_route [("h2", [("example.com", ⟨"t", "127.0.0.1:8080"⟩)])] "h2"
    "other.com" (by decide)

/-- C8: In every execution of a relay copy direction, the buffer
acquired from the pool at the start is returned to the pool when the
copy completes, on every control path: the trace contains exactly one
acquire and exactly one release, and the release is the final event,
whether the copy ended in EOF (`err = none`) or error, and whether the
direction won (`slots = 0`) or lost (`slots ≥ 1`) the teardown race. -/
theorem relay_buffer_returned (dst src : Nat) (err : Option String) (slots : Nat) :
    ((cp dst src err slots).1).count RelayEv.bufGet = 1 ∧
    ((cp dst src err slots).1).count RelayEv.bufPut = 1 ∧
    ((cp dst src err slots).1).getLast? = some RelayEv.bufPut := by
  rcases err with _ | e
  · by_cases hs2 : slots < 1
    · simp [cp, trySend, hs2]
    · simp [cp, trySend, hs2]
  · by_cases hs2 : slots < 1
    · simp [cp, trySend, hs2]
    · simp [cp, trySend, hs2]

/-- C9: Every connection successfully accepted by the keep-alive
listener wrapper has TCP keep-alive enabled before it is handed on. -/
theorem accept_enables_keepalive (raw : Except String TCPConn) (period : Nat)
    (c : TCPConn) (h : tcpKeepAliveListenerAccept raw period = .ok c) :
    c.keepAlive = true := by
  rcases raw with e | tc
  · cases h
  · simp only [tcpKeepAliveListenerAccept, Except.ok.injEq] at h
    subst h
    rfl

/-- Witness for C9: accepting a connection that had keep-alive off
returns it with keep-alive on. -/
theorem accept_enables_keepalive_witness : (⟨true, 180⟩ : TCPConn).keepAlive = true :=
  accept_enables_keepalive (.ok ⟨false, 0⟩) 180 ⟨true, 180⟩ rfl

/-- C1: Whichever relay direction finishes first closes both sockets
exactly once and logs exactly one disconnect event, while the losing
direction performs no further closing or logging, for either finish
order and any copy outcomes; the coordination is the one-slot signal
`trySend`. -/
theorem relay_single_teardown (downFirst : Bool) (errDown errUp : Option String) :
    (relayTrace downFirst errDown errUp).count (RelayEv.close 1) = 1 ∧
    (relayTrace downFirst errDown errUp).count (RelayEv.close 2) = 1 ∧
    (relayTrace downFirst errDown errUp).count RelayEv.logDisconnect = 1 ∧
    (∀ dst src err slots, 1 ≤ slots →
      (cp dst src err slots).1 = [RelayEv.bufGet, RelayEv.bufPut]) := by
  have hloser : ∀ dst src err slots, 1 ≤ slots →
      (cp dst src err slots).1 = [RelayEv.bufGet, RelayEv.bufPut] := by
    intro dst src err slots hs2
    simp [cp, trySend, show ¬slots < 1 by omega]
  refine ⟨?_, ?_, ?_, hloser⟩ <;>
    rcases downFirst with _ | _ <;> rcases errDown with _ | e1 <;> rcases errUp with _ | e2 <;>
    simp [relayTrace, cp, trySend]

/-- Witness for C1: the direction that loses the race (slot already
taken) produces no close and no disconnect log. -/
theorem relay_single_teardown_witness :
    (cp 1 2 none 1).1 = [RelayEv.bufGet, RelayEv.bufPut] :=
  (relay_single_teardown true none none).2.2.2 1 2 none 1 (by decide)

theorem pinit_error_of_violation (cfg : ProxyConfig) (rand : Option Key) (e : String)
    (h : firstViolation cfg = some e) : pinit cfg rand = .error e := by
  by_cases h1 : cfg.defaultProto = ""
  · simp [firstViolation, h1] at h
    simp [pinit, h1, h]
  rcases hpv : protosFirstViolation 0 cfg.protos with _ | e2
  · rcases hany : cfg.protos.any (fun pr => pr.name == cfg.defaultProto) with _ | _
    · simp only [firstViolation] at h
      rw [if_neg (by simpa using h1), hpv] at h
      simp [hany] at h
      obtain ⟨b, hs, nps, heq, hnps, hlook, -, -⟩ := initProtos_ok cfg.protos 0 [] [] [] hpv
      have hnone : alLookup b cfg.defaultProto = none := by
        rcases hcase : alLookup b cfg.defaultProto with _ | v
        · rfl
        · have hsome : (alLookup b cfg.defaultProto).isSome = true := by simp [hcase]
          rw [hlook] at hsome
          rcases hsome with hfalse | ⟨pr, hpr, hname⟩
          · simp [alLookup] at hfalse
          · have htrue : cfg.protos.any (fun pr => pr.name == cfg.defaultProto) = true :=
              List.any_eq_true.mpr ⟨pr, hpr, beq_iff_eq.mpr hname⟩
            rw [hany] at htrue
            cases htrue
      simp only [pinit]
      rw [if_neg (by simpa using h1), heq]
      simp [hnone, h]
    · by_cases h2 : cfg.cacheDir = ""
      · simp only [firstViolation] at h
        rw [if_neg (by simpa using h1), hpv] at h
        simp [hany, h2] at h
        obtain ⟨b, hs, nps, heq, hnps, hlook, -, -⟩ :=
          initProtos_ok cfg.protos 0 [] [] [] hpv
        have hdef : (alLookup b cfg.defaultProto).isSome = true := by
          rw [hlook]
          obtain ⟨pr, hpr, hname⟩ := List.any_eq_true.mp hany
          exact Or.inr ⟨pr, hpr, beq_iff_eq.mp hname⟩
        obtain ⟨defMap, hl⟩ := Option.isSome_iff_exists.mp hdef
        simp only [pinit]
        rw [if_neg (by simpa using h1), heq]
        simp [hl, h2, h]
      · simp only [firstViolation] at h
        rw [if_neg (by simpa using h1), hpv] at h
        simp [hany, h2] at h
  · simp only [firstViolation] at h
    rw [if_neg (by simpa using h1), hpv] at h
    simp only [Option.some.injEq] at h
    subst h
    simp only [pinit]
    rw [if_neg (by simpa using h1), initProtos_error cfg.protos 0 [] [] [] e2 hpv]

/-- Example configuration used by the concrete witnesses: one protocol
`h2` routing `example.com`, which is also the default protocol. -/
def cfgEx : ProxyConfig :=
  ⟨[], "", "/cache", [⟨"h2", [("example.com", "127.0.0.1:8080")]⟩], "h2"⟩

/-- The backend `cfgEx` routes to. -/
def bkEx : Backend := ⟨"\"h2\".\"example.com\": ", "127.0.0.1:8080"⟩

/-- The init result for `cfgEx` with initial session key 5. -/
def resEx : InitResult :=
  ⟨[("h2", [("example.com", bkEx)]), ("", [("example.com", bkEx)])],
   ["example.com"], ["h2"], [5]⟩

/-- Configuration with a missing default protocol, for the C6 witness. -/
def cfgBad : ProxyConfig := ⟨[], "", "", [], ""⟩

/-- C2: For every configuration that passes validation, the routing
table entry for the empty protocol name is the same host map as the
entry for the default protocol name, so any hostname lookup under the
empty protocol and under the default protocol yields the identical
backend. -/
theorem default_proto_alias (cfg : ProxyConfig) (rand : Option Key) (res : InitResult)
    (h : pinit cfg rand = .ok res) :
    alLookup res.backends "" = alLookup res.backends cfg.defaultProto ∧
    ∀ host, alLookup ((alLookup res.backends "").getD []) host
      = alLookup ((alLookup res.backends cfg.defaultProto).getD []) host := by
  obtain ⟨h1, h2, b, hs, nps, defMap, k, heq, hl, hr, hres⟩ := pinit_ok_elim cfg rand res h
  subst hres
  have hfst : alLookup (alInsert b "" defMap) ""
      = alLookup (alInsert b "" defMap) cfg.defaultProto := by
    rw [alLookup_alInsert_self, alLookup_alInsert_ne b "" cfg.defaultProto defMap h1, hl]
  refine ⟨hfst, fun host => ?_⟩
  show alLookup ((alLookup (alInsert b "" defMap) "").getD []) host
    = alLookup ((alLookup (alInsert b "" defMap) cfg.defaultProto).getD []) host
  rw [hfst]

/-- Witness for C2 on the concrete example configuration. -/
theorem default_proto_alias_witness :
    alLookup resEx.backends "" = alLookup resEx.backends "h2" :=
  (default_proto_alias cfgEx (some 5) resEx rfl).1

/-- C10: For every configuration accepted by validation, the
protocol-level routing lookup is defined both for the empty protocol
name (the default alias) and for every advertised ALPN protocol name,
so only the inner hostname lookup can fail. -/
theorem negotiated_protocol_defined (cfg : ProxyConfig) (rand : Option Key)
    (res : InitResult) (h : pinit cfg rand = .ok res) (proto : String)
    (hp : proto = "" ∨ proto ∈ res.nextProtos) :
    (alLookup res.backends proto).isSome = true := by
  obtain ⟨h1, h2, b, hs, nps, defMap, k, heq, hl, hr, hres⟩ := pinit_ok_elim cfg rand res h
  subst hres
  show (alLookup (alInsert b "" defMap) proto).isSome = true
  rcases hp with rfl | hmem
  · rw [alLookup_alInsert_self]
    rfl
  · have hmem2 : proto ∈ nps := hmem
    have hb : (alLookup b proto).isSome = true :=
      initProtos_keys cfg.protos 0 [] b [] [] hs nps heq (by simp) proto hmem2
    rw [alLookup_alInsert_isSome]
    simp [hb]

/-- Witness for C10 on the concrete example configuration. -/
theorem negotiated_protocol_defined_witness :
    (alLookup resEx.backends "h2").isSome = true :=
  negotiated_protocol_defined cfgEx (some 5) resEx rfl "h2" (Or.inr (by decide))

/-- C3: The key ring starts with one synchronously generated key
(`initialKeys = [k]`); after K rotations with K < capacity the ring
holds exactly K+1 keys newest-first; once at capacity, a rotation keeps
the size pinned at capacity and evicts the oldest key. -/
theorem session_key_rotation :
    (∀ cfg (k : Key) res, pinit cfg (some k) = .ok res → res.initialKeys = [k]) ∧
    (∀ (k0 : Key) (ks : List Key), ks.length < sessionKeyCap →
      rotateRun [k0] ks = ks.reverse ++ [k0] ∧
      (rotateRun [k0] ks).length = ks.length + 1) ∧
    (∀ (l : List Key) (k : Key), l.length = sessionKeyCap →
      rotateStep l (some k) = some (k :: l.dropLast) ∧
      (k :: l.dropLast).length = sessionKeyCap) := by
  refine ⟨?_, ?_, ?_⟩
  · intro cfg k res h
    obtain ⟨-, -, b, hs, nps, defMap, k2, -, -, hr, hres⟩ := pinit_ok_elim cfg (some k) res h
    cases hr
    subst hres
    rfl
  · intro k0 ks hlen
    have h := rotateRun_eq [k0] ks (by simp) (by simp; omega)
    refine ⟨h, ?_⟩
    rw [h]
    simp
  · intro l k hcap
    have hpos : 0 < sessionKeyCap := by norm_num [sessionKeyCap]
    constructor
    · show some ((shiftedKeys l).set 0 k) = some (k :: l.dropLast)
      rw [shiftedKeys_set_at_cap l k hcap]
    · simp only [List.length_cons, List.length_dropLast]
      omega

/-- Witness for C3: two rotations from the single initial key yield a
three-key ring, newest first. -/
theorem session_key_rotation_witness :
    rotateRun [0] [1, 2] = [2, 1, 0] ∧ (rotateRun [0] [1, 2]).length = 3 := by
  have h := session_key_rotation.2.1 0 [1, 2] (by norm_num [sessionKeyCap])
  simpa using h

/-- C7: Failure to obtain secure randomness is fatal: at startup `init`
returns an error for every configuration (never a success), and during
rotation the process terminates (`none`); the failure is never ignored
or degraded. -/
theorem randomness_failure_fatal :
    (∀ cfg, firstViolation cfg = none →
      pinit cfg none = .error "session ticket key generation failed") ∧
    (∀ cfg, ∃ e, pinit cfg none = .error e) ∧
    (∀ keys, rotateStep keys none = none) := by
  have hvalid : ∀ cfg, firstViolation cfg = none →
      pinit cfg none = .error "session ticket key generation failed" := by
    intro cfg hv
    obtain ⟨b, hs, nps, defMap, -, -, -, -, hpinit⟩ := pinit_valid_shape cfg hv none
    exact hpinit
  refine ⟨hvalid, ?_, fun keys => rfl⟩
  intro cfg
  rcases hv : firstViolation cfg with _ | e
  · exact ⟨_, hvalid cfg hv⟩
  · exact ⟨e, pinit_error_of_violation cfg none e hv⟩

/-- Witness for C7: on the valid example configuration, a randomness
failure at startup makes `init` return the key-generation error. -/
theorem randomness_failure_fatal_witness :
    pinit cfgEx none = .error "session ticket key generation failed" :=
  randomness_failure_fatal.1 cfgEx rfl

/-- C6: A configuration with a structural violation fails validation
with the first violation encountered (in traversal order), identifying
the invalid field; a configuration with no violation yields a routing
table together with the duplicate-free set of all referenced
hostnames. -/
theorem init_validation (cfg : ProxyConfig) (k : Key) :
    (∀ e, firstViolation cfg = some e → pinit cfg (some k) = .error e) ∧
    (firstViolation cfg = none →
      ∃ res, pinit cfg (some k) = .ok res ∧ res.hosts.Nodup ∧
        ∀ x, x ∈ res.hosts ↔ referencedHost cfg x) := by
  constructor
  · intro e he
    exact pinit_error_of_violation cfg (some k) e he
  · intro hv
    obtain ⟨b, hs, nps, defMap, heq, hl, hnd, hmem, hpinit⟩ := pinit_valid_shape cfg hv (some k)
    exact ⟨⟨alInsert b "" defMap, hs, nps, [k]⟩, hpinit, hnd, hmem⟩

/-- Witness for C6: a configuration missing its default protocol fails
with the corresponding first violation. -/
theorem init_validation_witness :
    pinit cfgBad (some 0) = .error "defaultProto is empty or missing" :=
  (init_validation cfgBad 0).1 "defaultProto is empty or missing" rfl
